import Mathlib

/-!
Shallow embedding of the InMoov UART servo controller
(`UART_InMoov.ino` and the `AdaHat` class) and proofs about it.

Modelling conventions:
* C `int`/`long` values are modelled as `Int`; C integer division
  (truncation toward zero) is `Int.tdiv`.
* Timestamps (`millis()`) are modelled as `Nat` values supplied by the
  environment; the servo state carries them unchanged.
* The fixed-size C arrays of the `AdaHat` class are `List`s of length 32;
  reads use `List.getD`, writes use `List.set`.
* Calls to the Adafruit PWM driver (`_pwm0.setPWM` / `_pwm1.setPWM`) are
  recorded as `SinkCall` events (page 0 is `_pwm0`, page 1 is `_pwm1`).
* Serial output is recorded as `Response` events carrying the information
  content of the printed lines.
* Code paths that are undefined behaviour in C (a read through the NULL
  result of `strpbrk`, a read past the end of a local array) are modelled
  with `Option`, where `none` marks the undefined access.
-/

/-! ### Configuration constants (the `#define`s of `UART_InMoov.ino`) -/

def SERVO_HEAD_TWIST_MIN : Int := 180
def SERVO_HEAD_TWIST_MAX : Int := 580
def SERVO_HEAD_VERT_MIN : Int := 140
def SERVO_HEAD_VERT_MAX : Int := 550
def SERVO_HEAD_MOUTH_MIN : Int := 135
def SERVO_HEAD_MOUTH_MAX : Int := 550
def SERVO_RIGHT_BICEP_TWIST_MIN : Int := 180
def SERVO_RIGHT_BICEP_TWIST_MAX : Int := 580
def SERVO_UNCALIBRATED_DEFAULT_MIN : Int := 150
def SERVO_UNCALIBRATED_DEFAULT_MAX : Int := 600

def PIN_HEAD_TWIST : Int := 0
def PIN_HEAD_MOUTH : Int := 1
def PIN_HEAD_VERT : Int := 8
def PIN_RIGHT_BICEP_TWIST : Int := 2
def PIN_RIGHT_THUMB : Int := 3
def PIN_RIGHT_INDEX : Int := 4
def PIN_RIGHT_MIDDLE : Int := 5
def PIN_RIGHT_RING : Int := 6
def PIN_RIGHT_PINKY : Int := 7
def PIN_RIGHT_WRIST : Int := 9

def PIN_INVERT : Int := PIN_RIGHT_MIDDLE

def PIN_LEFT_THUMB : Int := 15
def PIN_LEFT_INDEX : Int := 16
def PIN_LEFT_MIDDLE : Int := 17
def PIN_LEFT_RING : Int := 18
def PIN_LEFT_PINKY : Int := 19
def PIN_LEFT_WRIST : Int := 20

def HEAD_TWIST_MIN : Int := 40
def HEAD_TWIST_MAX : Int := 100
def HEAD_VERT_MIN : Int := 20
def HEAD_VERT_MAX : Int := 90
def HEAD_MOUTH_MIN : Int := 45
def HEAD_MOUTH_MAX : Int := 90
def RIGHT_BICEP_TWIST_MIN : Int := 45
def RIGHT_BICEP_TWIST_MAX : Int := 120
def RIGHT_THUMB_MIN : Int := 10
def RIGHT_THUMB_MAX : Int := 100
def RIGHT_INDEX_MIN : Int := 0
def RIGHT_INDEX_MAX : Int := 80
def RIGHT_MIDDLE_MIN : Int := 40
def RIGHT_MIDDLE_MAX : Int := 140
def RIGHT_RING_MIN : Int := 20
def RIGHT_RING_MAX : Int := 165
def RIGHT_PINKY_MIN : Int := 45
def RIGHT_PINKY_MAX : Int := 165
def RIGHT_WRIST_MIN : Int := 40
def RIGHT_WRIST_MAX : Int := 120
def LEFT_THUMB_MIN : Int := 10
def LEFT_THUMB_MAX : Int := 100
def LEFT_INDEX_MIN : Int := 0
def LEFT_INDEX_MAX : Int := 80
def LEFT_MIDDLE_MIN : Int := 40
def LEFT_MIDDLE_MAX : Int := 140
def LEFT_RING_MIN : Int := 20
def LEFT_RING_MAX : Int := 165
def LEFT_PINKY_MIN : Int := 45
def LEFT_PINKY_MAX : Int := 165
def LEFT_WRIST_MIN : Int := 40
def LEFT_WRIST_MAX : Int := 120

/-! ### Arduino `map` and the two mapping functions of the sketch -/

/-- Arduino's `map(x, in_min, in_max, out_min, out_max)`:
`(x - in_min) * (out_max - out_min) / (in_max - in_min) + out_min` with
C `long` division (truncation toward zero, `Int.tdiv`). -/
def amap (x inMin inMax outMin outMax : Int) : Int :=
  Int.tdiv ((x - inMin) * (outMax - outMin)) (inMax - inMin) + outMin

/-- `getCalculatedDegreesFromPercentage` from `UART_InMoov.ino`:
clamp the command value to `[0,100]`, then `map(v, 0, 100, minimum, maximum)`. -/
def getCalculatedDegreesFromPercentage (commandValue minimum maximum : Int) : Int :=
  let cv1 := if commandValue > 100 then 100 else commandValue
  let cv2 := if cv1 < 0 then 0 else cv1
  amap cv2 0 100 minimum maximum

/-- `getCalculatedRelativeDegrees` from `UART_InMoov.ino`: recover the current
percentage by the inverse map, add the delta, clamp to `[0,100]`, map back. -/
def getCalculatedRelativeDegrees (commandValue minimum maximum current : Int) : Int :=
  let current_percent := amap current minimum maximum 0 100
  let np1 := current_percent + commandValue
  let np2 := if np1 > 100 then 100 else np1
  let np3 := if np2 < 0 then 0 else np2
  amap np3 0 100 minimum maximum

/-! ### Servo code and calibration lookup tables -/

/-- `getControlPin` from `UART_InMoov.ino`: the fixed `strcmp` chain mapping a
two-character servo code to an Ada-hat pin; `-1` signals "not found". -/
def getControlPin (servo : List Char) : Int :=
  if servo = ['H', 'H'] then PIN_HEAD_TWIST else
  if servo = ['H', 'V'] then PIN_HEAD_VERT else
  if servo = ['H', 'M'] then PIN_HEAD_MOUTH else
  if servo = ['R', 'B'] then PIN_RIGHT_BICEP_TWIST else
  if servo = ['R', 'T'] then PIN_RIGHT_THUMB else
  if servo = ['R', 'I'] then PIN_RIGHT_INDEX else
  if servo = ['R', 'M'] then PIN_RIGHT_MIDDLE else
  if servo = ['R', 'R'] then PIN_RIGHT_RING else
  if servo = ['R', 'P'] then PIN_RIGHT_PINKY else
  if servo = ['R', 'W'] then PIN_RIGHT_WRIST else
  if servo = ['L', 'T'] then PIN_LEFT_THUMB else
  if servo = ['L', 'I'] then PIN_LEFT_INDEX else
  if servo = ['L', 'M'] then PIN_LEFT_MIDDLE else
  if servo = ['L', 'R'] then PIN_LEFT_RING else
  if servo = ['L', 'P'] then PIN_LEFT_PINKY else
  if servo = ['L', 'W'] then PIN_LEFT_WRIST else
  -1

/-- `getServoMin` from `UART_InMoov.ino`: per-pin minimum of the 0-180 degree
range; `90` is the "safe default" for unknown pins. -/
def getServoMin (servoPin : Int) : Int :=
  if servoPin = PIN_HEAD_TWIST then HEAD_TWIST_MIN else
  if servoPin = PIN_HEAD_MOUTH then HEAD_MOUTH_MIN else
  if servoPin = PIN_HEAD_VERT then HEAD_VERT_MIN else
  if servoPin = PIN_RIGHT_BICEP_TWIST then RIGHT_BICEP_TWIST_MIN else
  if servoPin = PIN_RIGHT_THUMB then RIGHT_THUMB_MIN else
  if servoPin = PIN_RIGHT_INDEX then RIGHT_INDEX_MIN else
  if servoPin = PIN_RIGHT_MIDDLE then RIGHT_MIDDLE_MIN else
  if servoPin = PIN_RIGHT_RING then RIGHT_RING_MIN else
  if servoPin = PIN_RIGHT_PINKY then RIGHT_PINKY_MIN else
  if servoPin = PIN_RIGHT_WRIST then RIGHT_WRIST_MIN else
  if servoPin = PIN_LEFT_THUMB then LEFT_THUMB_MIN else
  if servoPin = PIN_LEFT_INDEX then LEFT_INDEX_MIN else
  if servoPin = PIN_LEFT_MIDDLE then LEFT_MIDDLE_MIN else
  if servoPin = PIN_LEFT_RING then LEFT_RING_MIN else
  if servoPin = PIN_LEFT_PINKY then LEFT_PINKY_MIN else
  if servoPin = PIN_LEFT_WRIST then LEFT_WRIST_MIN else
  90

/-- `getServoMax` from `UART_InMoov.ino`: per-pin maximum of the 0-180 degree
range; `90` is the "safe default" for unknown pins. -/
def getServoMax (servoPin : Int) : Int :=
  if servoPin = PIN_HEAD_TWIST then HEAD_TWIST_MAX else
  if servoPin = PIN_HEAD_MOUTH then HEAD_MOUTH_MAX else
  if servoPin = PIN_HEAD_VERT then HEAD_VERT_MAX else
  if servoPin = PIN_RIGHT_BICEP_TWIST then RIGHT_BICEP_TWIST_MAX else
  if servoPin = PIN_RIGHT_THUMB then RIGHT_THUMB_MAX else
  if servoPin = PIN_RIGHT_INDEX then RIGHT_INDEX_MAX else
  if servoPin = PIN_RIGHT_MIDDLE then RIGHT_MIDDLE_MAX else
  if servoPin = PIN_RIGHT_RING then RIGHT_RING_MAX else
  if servoPin = PIN_RIGHT_PINKY then RIGHT_PINKY_MAX else
  if servoPin = PIN_RIGHT_WRIST then RIGHT_WRIST_MAX else
  if servoPin = PIN_LEFT_THUMB then LEFT_THUMB_MAX else
  if servoPin = PIN_LEFT_INDEX then LEFT_INDEX_MAX else
  if servoPin = PIN_LEFT_MIDDLE then LEFT_MIDDLE_MAX else
  if servoPin = PIN_LEFT_RING then LEFT_RING_MAX else
  if servoPin = PIN_LEFT_PINKY then LEFT_PINKY_MAX else
  if servoPin = PIN_LEFT_WRIST then LEFT_WRIST_MAX else
  90

/-! ### The `AdaHat` state and its methods -/

/-- One `setPWM` call on the Adafruit driver: `page` 0 is `_pwm0` (address
0x40), `page` 1 is `_pwm1` (address 0x41); `channel` and `pulse` are the
first and third argument of `setPWM` (the second is always 0). -/
structure SinkCall where
  page : Nat
  channel : Int
  pulse : Int
  deriving DecidableEq, Repr

/-- The private arrays of the `AdaHat` class (`AdaHat.h`), each of length 32. -/
structure Hat where
  servoMins : List Int
  servoMaxs : List Int
  servoPoss : List Int
  lastUpdated : List Nat
  deriving DecidableEq, Repr

/-- The in-class default values from `AdaHat.h`: mins/maxs all 375, positions all
`-1` ("never set"), timestamps all 0. -/
def initHat : Hat where
  servoMins := List.replicate 32 375
  servoMaxs := List.replicate 32 375
  servoPoss := List.replicate 32 (-1)
  lastUpdated := List.replicate 32 0

/-- `AdaHat::setupServo`: record the calibrated pulse bounds for a pin
(no-op for position `-1`). -/
def setupServo (h : Hat) (position : Int) (min max : Int) : Hat :=
  if position = -1 then h
  else { h with servoMins := h.servoMins.set position.toNat min,
                servoMaxs := h.servoMaxs.set position.toNat max }

/-- The `setup()` function of `UART_InMoov.ino`: the ten `setupServo` calls
(the left arm is not set up; its comment says "TODO: Setup left arm"). -/
def setupHat : Hat :=
  let h := initHat
  let h := setupServo h PIN_HEAD_TWIST SERVO_HEAD_TWIST_MIN SERVO_HEAD_TWIST_MAX
  let h := setupServo h PIN_HEAD_VERT SERVO_HEAD_VERT_MIN SERVO_HEAD_VERT_MAX
  let h := setupServo h PIN_HEAD_MOUTH SERVO_HEAD_MOUTH_MIN SERVO_HEAD_MOUTH_MAX
  let h := setupServo h PIN_RIGHT_BICEP_TWIST SERVO_RIGHT_BICEP_TWIST_MIN SERVO_RIGHT_BICEP_TWIST_MAX
  let h := setupServo h PIN_RIGHT_THUMB SERVO_UNCALIBRATED_DEFAULT_MIN SERVO_UNCALIBRATED_DEFAULT_MAX
  let h := setupServo h PIN_RIGHT_INDEX SERVO_UNCALIBRATED_DEFAULT_MIN SERVO_UNCALIBRATED_DEFAULT_MAX
  let h := setupServo h PIN_RIGHT_MIDDLE SERVO_UNCALIBRATED_DEFAULT_MIN SERVO_UNCALIBRATED_DEFAULT_MAX
  let h := setupServo h PIN_RIGHT_RING SERVO_UNCALIBRATED_DEFAULT_MIN SERVO_UNCALIBRATED_DEFAULT_MAX
  let h := setupServo h PIN_RIGHT_PINKY SERVO_UNCALIBRATED_DEFAULT_MIN SERVO_UNCALIBRATED_DEFAULT_MAX
  let h := setupServo h PIN_RIGHT_WRIST SERVO_UNCALIBRATED_DEFAULT_MIN SERVO_UNCALIBRATED_DEFAULT_MAX
  h

/-- `AdaHat::getServoDegrees`: read the last commanded degrees of a pin. -/
def getServoDegrees (h : Hat) (position : Int) : Int :=
  h.servoPoss.getD position.toNat 0

/-- `AdaHat::setServoDegrees` at time `now` (= `millis()`): record the degrees
and the timestamp, map the degrees through the pin's calibrated pulse bounds,
and emit the `setPWM` call (`_pwm0` for pins below 16, `_pwm1` with a re-based
index for pins from 16 up). -/
def setServoDegrees (h : Hat) (now : Nat) (position : Int) (degrees : Int) :
    Hat × List SinkCall :=
  let currentMin := h.servoMins.getD position.toNat 0
  let currentMax := h.servoMaxs.getD position.toNat 0
  let h' : Hat := { h with servoPoss := h.servoPoss.set position.toNat degrees,
                           lastUpdated := h.lastUpdated.set position.toNat now }
  let pulseLength := amap degrees 0 180 currentMin currentMax
  (h', (if position < 16 then [SinkCall.mk 0 position pulseLength] else []) ++
       (if position ≥ 16 then [SinkCall.mk 1 (position - 16) pulseLength] else []))

/-- `AdaHat::turnOffIdleServos` at time `now`: the source loop runs
`for (int pin = 0; pin < 16; pin++)` and, for a pin whose timestamp is more
than 5000 in the past, emits the disable pulse 4096 (the `pin >= 16` branch
inside the loop is kept although the loop never reaches it). -/
def turnOffIdleServos (h : Hat) (now : Nat) : List SinkCall :=
  (List.range 16).flatMap fun pin =>
    if now > h.lastUpdated.getD pin 0 + 5000 then
      (if pin < 16 then [SinkCall.mk 0 (pin : Int) 4096] else []) ++
      (if pin ≥ 16 then [SinkCall.mk 1 ((pin : Int) - 16) 4096] else [])
    else []

/-! ### Serial line accumulation (`recvWithEndMarker`) -/

/-- `const byte numChars = 32`: capacity of the `commands` buffer. -/
def numChars : Nat := 32

/-- The globals used by `recvWithEndMarker`: the `commands` buffer, the static
write index `ndx`, and the `newData` flag. -/
structure RecvState where
  commands : List Char
  ndx : Nat
  newData : Bool
  deriving DecidableEq, Repr

/-- One iteration of the `recvWithEndMarker` loop body on the received byte
`rc`: a non-marker byte is stored at `ndx`, which is then incremented and
clamped to `numChars - 1`; the end marker `'\n'` stores the terminator,
resets `ndx` and raises `newData`. -/
def recvStep (st : RecvState) (rc : Char) : RecvState :=
  if rc ≠ '\n' then
    let st1 : RecvState :=
      { st with commands := st.commands.set st.ndx rc, ndx := st.ndx + 1 }
    if st1.ndx ≥ numChars then { st1 with ndx := numChars - 1 } else st1
  else
    { st with commands := st.commands.set st.ndx '\x00', ndx := 0, newData := true }

/-- `recvWithEndMarker`: consume available serial bytes while `newData` is
false; returns the final state and the bytes left unread in the serial
buffer. -/
def recvWithEndMarker : RecvState → List Char → RecvState × List Char
  | st, [] => (st, [])
  | st, c :: rest =>
    if st.newData = false then recvWithEndMarker (recvStep st c) rest
    else (st, c :: rest)

/-- The buffer contents after accumulating a line's bytes from write position
`n` and then terminating: mirrors the write/clamp/terminate sequence of
`recvStep`, used to state what `recvWithEndMarker` leaves in `commands`. -/
def accumBuf : List Char → Nat → List Char → List Char
  | buf, n, [] => buf.set n '\x00'
  | buf, n, c :: cs =>
      accumBuf (buf.set n c) (if n + 1 ≥ numChars then numChars - 1 else n + 1) cs

/-- The C string stored in a buffer: its characters before the first `'\0'`. -/
def cstringOf (buf : List Char) : List Char :=
  buf.takeWhile (fun c => c != '\x00')

/-! ### Tokenization and value parsing (`processCommands`) -/

/-- Helper for `tokenize`: accumulates the current token (reversed) while
scanning; mirrors `strtok` with delimiter `' '` (a completed line contains no
`'\n'`, so the extra `'\n'` delimiter of the first `strtok` call is inert). -/
def tokenizeGo : List Char → List Char → List (List Char)
  | acc, [] => if acc = [] then [] else [acc.reverse]
  | acc, c :: rest =>
    if c = ' ' then
      if acc = [] then tokenizeGo [] rest
      else acc.reverse :: tokenizeGo [] rest
    else tokenizeGo (c :: acc) rest

/-- Splitting a command line into `strtok` tokens: maximal non-empty runs of
non-space characters. -/
def tokenize (line : List Char) : List (List Char) :=
  tokenizeGo [] line

/-- The character set of `strpbrk(command, "+-1234567890")`. -/
def valueChars : List Char :=
  ['+', '-', '1', '2', '3', '4', '5', '6', '7', '8', '9', '0']

/-- C `atol` on the suffix found by `strpbrk`: an optional sign followed by
the leading run of digits (the first character is a sign or digit by
construction, so `atol`'s whitespace skipping never fires). -/
def atol (cs : List Char) : Int :=
  match cs with
  | '+' :: rest => ((rest.takeWhile Char.isDigit).foldl
      (fun a c => a * 10 + (c.toNat - 48)) 0 : Nat)
  | '-' :: rest => -(((rest.takeWhile Char.isDigit).foldl
      (fun a c => a * 10 + (c.toNat - 48)) 0 : Nat) : Int)
  | _ => ((cs.takeWhile Char.isDigit).foldl
      (fun a c => a * 10 + (c.toNat - 48)) 0 : Nat)

/-- Decomposing one token inside the `processCommands` loop: the servo code is
the token's first two characters; `strpbrk` locates the first `+`/`-`/digit,
a leading sign marks the command relative, and `atol` parses the value.
`none` models the token with no such character: there `strpbrk` returns NULL
and the source dereferences it (`value_str[0]`, `atol(value_str)`), which is
undefined behaviour. -/
def parseToken (tok : List Char) : Option (List Char × Int × Bool) :=
  let servo := tok.take 2
  match tok.dropWhile (fun c => !(valueChars.contains c)) with
  | [] => none
  | c :: rest => some (servo, atol (c :: rest), c == '+' || c == '-')

/-! ### Dispatch (`sendCommand`, `setDefaultPositions`, `processCommands`) -/

/-- Serial output events, carrying the information content of the printed
lines: `echo` is the `"C:<line>"` echo, `ack` the `"M:Received command -"`
acknowledgement (servo code, relative flag, value), `e100` the
`"E100: Unsupported Servo: <code>"` error. -/
inductive Response where
  | echo (line : List Char)
  | ack (servo : List Char) (relative : Bool) (value : Int)
  | e100 (servo : List Char)
  deriving DecidableEq, Repr

/-- `sendCommand` from `UART_InMoov.ino`: resolve the code, apply the
inversion `value = 100 - value` when the pin is `PIN_INVERT`, then either map
the absolute percentage, or (relative) first establish the 50% baseline if the
pin was never set and apply the relative mapping; an unresolved code emits the
`E100` error and changes nothing. -/
def sendCommand (h : Hat) (now : Nat) (servo : List Char) (value : Int)
    (relative : Bool) : Hat × List SinkCall × List Response :=
  let control_pin := getControlPin servo
  if control_pin > -1 then
    let servo_min := getServoMin control_pin
    let servo_max := getServoMax control_pin
    let value := if control_pin = PIN_INVERT then 100 - value else value
    if relative = false then
      let r := setServoDegrees h now control_pin
        (getCalculatedDegreesFromPercentage value servo_min servo_max)
      (r.1, r.2, [])
    else
      let r1 := if getServoDegrees h control_pin = -1 then
          setServoDegrees h now control_pin
            (getCalculatedDegreesFromPercentage 50 servo_min servo_max)
        else (h, [])
      let r2 := setServoDegrees r1.1 now control_pin
        (getCalculatedRelativeDegrees value servo_min servo_max
          (getServoDegrees r1.1 control_pin))
      (r2.1, r1.2 ++ r2.2, [])
  else
    (h, [], [Response.e100 servo])

/-- The local `pins` array of `setDefaultPositions` (the left-arm entries are
commented out in the source). -/
def defaultPins : List Int :=
  [PIN_HEAD_TWIST, PIN_HEAD_VERT, PIN_HEAD_MOUTH, PIN_RIGHT_BICEP_TWIST,
   PIN_RIGHT_THUMB, PIN_RIGHT_INDEX, PIN_RIGHT_MIDDLE, PIN_RIGHT_RING,
   PIN_RIGHT_PINKY, PIN_RIGHT_WRIST]

/-- `sizeof(pins)` for the local array `int pins[10]` on the AVR target,
where `int` is 2 bytes: 20. The source's loop bound is `sizeof(pins) - 1`. -/
def sizeofPins : Nat := 2 * 10

/-- `setDefaultPositions`: for `i` from 0 to `sizeof(pins) - 2`, set pin
`pins[i]` to the degrees for 50% of its range. The read `pins[i]` is modelled
by `List.get?`: `none` marks the out-of-bounds stack read (undefined
behaviour) that occurs as soon as `i` reaches the array length. -/
def setDefaultPositions (h : Hat) (now : Nat) : Option (Hat × List SinkCall) :=
  (List.range (sizeofPins - 1)).foldl
    (fun acc i =>
      acc.bind fun r =>
        (defaultPins.get? i).map fun pin =>
          let servo_min := getServoMin pin
          let servo_max := getServoMax pin
          let r' := setServoDegrees r.1 now pin
            (getCalculatedDegreesFromPercentage 50 servo_min servo_max)
          (r'.1, r.2 ++ r'.2))
    (some (h, []))

/-- The body of the `processCommands` token loop for one token: parse the
servo code and value (`none` on the NULL `strpbrk` result), print the
acknowledgement, then either run `setDefaultPositions` (code `"DP"`) or
`sendCommand`. -/
def processToken (h : Hat) (now : Nat) (tok : List Char) :
    Option (Hat × List SinkCall × List Response) :=
  match parseToken tok with
  | none => none
  | some (servo, value, relative) =>
    let ackR := Response.ack servo relative value
    if servo = ['D', 'P'] then
      (setDefaultPositions h now).map fun r => (r.1, r.2, [ackR])
    else
      let r := sendCommand h now servo value relative
      some (r.1, r.2.1, ackR :: r.2.2)

/-- The `processCommands` token loop over a list of tokens, threading the
servo state and concatenating sink calls and serial output in order. -/
def processTokens (h : Hat) (now : Nat) :
    List (List Char) → Option (Hat × List SinkCall × List Response)
  | [] => some (h, [], [])
  | tok :: rest =>
    (processToken h now tok).bind fun r1 =>
      (processTokens r1.1 now rest).map fun r2 =>
        (r2.1, r1.2.1 ++ r2.2.1, r1.2.2 ++ r2.2.2)

/-- `processCommands` on a completed line: echo the line (`"C:"` prefix),
split it into tokens, and process them left to right. -/
def processLine (h : Hat) (now : Nat) (line : List Char) :
    Option (Hat × List SinkCall × List Response) :=
  (processTokens h now (tokenize line)).map fun r =>
    (r.1, r.2.1, Response.echo line :: r.2.2)

/-! ### Spec-side definitions (for refinement comparisons) and proof scaffolding -/

/-- Division rounding to the nearest integer (half away from zero is
irrelevant here; it is only applied off ties): `round(a / b)` for `b > 0`. -/
def roundNearestDiv (a b : Int) : Int :=
  (2 * a + b) / (2 * b)

/-- Modelled from the spec claim C6: `fromPercentage(p, min, max)` clamps `p`
to `[0,100]` and returns `min + round((max-min) * p / 100)` with mathematical
rounding to the nearest integer. To be compared with the source's
`getCalculatedDegreesFromPercentage`. -/
def fromPercentage_specRound (p m M : Int) : Int :=
  let q1 := if p > 100 then 100 else p
  let q2 := if q1 < 0 then 0 else q1
  m + roundNearestDiv ((M - m) * q2) 100

/-- Modelled from the spec claim C6 (amended): clamp `p` to `[0,100]`, then
`min + floor((max-min) * p / 100)` (`/` on `Int` is floor division for the
nonnegative divisor 100). To be compared with the source's
`getCalculatedDegreesFromPercentage`. -/
def fromPercentage_specFloor (p m M : Int) : Int :=
  let q1 := if p > 100 then 100 else p
  let q2 := if q1 < 0 then 0 else q1
  m + ((M - m) * q2) / 100

/-- Modelled from the spec claim C2: identical to `sendCommand` except that
the inversion `value := 100 - value` for `PIN_INVERT` is applied only when the
command is absolute, leaving a relative command's delta unchanged. To be
compared with the source's `sendCommand`. -/
def sendCommand_specAbsInvertOnly (h : Hat) (now : Nat) (servo : List Char)
    (value : Int) (relative : Bool) : Hat × List SinkCall × List Response :=
  let control_pin := getControlPin servo
  if control_pin > -1 then
    let servo_min := getServoMin control_pin
    let servo_max := getServoMax control_pin
    let value := if control_pin = PIN_INVERT ∧ relative = false then 100 - value
      else value
    if relative = false then
      let r := setServoDegrees h now control_pin
        (getCalculatedDegreesFromPercentage value servo_min servo_max)
      (r.1, r.2, [])
    else
      let r1 := if getServoDegrees h control_pin = -1 then
          setServoDegrees h now control_pin
            (getCalculatedDegreesFromPercentage 50 servo_min servo_max)
        else (h, [])
      let r2 := setServoDegrees r1.1 now control_pin
        (getCalculatedRelativeDegrees value servo_min servo_max
          (getServoDegrees r1.1 control_pin))
      (r2.1, r1.2 ++ r2.2, [])
  else
    (h, [], [Response.e100 servo])

/-- A dispatched command together with the `millis()` value at which the main
loop dispatches it. -/
structure TimedCmd where
  time : Nat
  servo : List Char
  value : Int
  relative : Bool
  deriving DecidableEq, Repr

/-- The sequence of servo states visited while dispatching a command list
through `sendCommand` (initial state included). -/
def hatTrace (h : Hat) : List TimedCmd → List Hat
  | [] => [h]
  | c :: rest => h :: hatTrace (sendCommand h c.time c.servo c.value c.relative).1 rest

/-- `isNondec l = true` iff the list of numbers is non-decreasing. -/
def isNondec : List Nat → Bool
  | a :: b :: rest => Nat.ble a b && isNondec (b :: rest)
  | _ => true

/-- A stored angle is valid when it is the `-1` "unset" sentinel or lies in
the 0-180 degree range. -/
abbrev degreesOK (d : Int) : Prop :=
  d = -1 ∨ (0 ≤ d ∧ d ≤ 180)

/-- The registry invariant at time `t`: well-formed array lengths, calibrated
bounds ordered, stored angles valid, and no timestamp in the future. -/
def HatInv (h : Hat) (t : Nat) : Prop :=
  h.servoMins.length = 32 ∧ h.servoMaxs.length = 32 ∧
  h.servoPoss.length = 32 ∧ h.lastUpdated.length = 32 ∧
  (∀ pin : Nat, pin < 32 → h.servoMins.getD pin 0 ≤ h.servoMaxs.getD pin 0) ∧
  (∀ pin : Nat, pin < 32 → degreesOK (h.servoPoss.getD pin 0)) ∧
  (∀ pin : Nat, pin < 32 → h.lastUpdated.getD pin 0 ≤ t)

/-- A concrete state whose inverted channel (`PIN_INVERT` = pin 5) has been
set to 90 degrees; used to instantiate theorems about relative commands. -/
def hatRM90 : Hat :=
  { setupHat with servoPoss := setupHat.servoPoss.set 5 90 }

/-! ### Theorems -/

/-- Claim C1 (code bug evidence): with every timestamp at 0 and the clock at
6000, channel 16 (a configured left-arm pin, reachable via code `"LI"`) has
been idle for more than 5000 time units, yet the idle sweep emits no call on
the second driver page (where every channel with id at least 16 lives), while
an idle low channel such as pin 15 does get its 4096 disable call: the loop
bound 16 makes the sweep skip every channel with id 16 or more, and its
`pin >= 16` branch is dead code. -/
theorem idleSweep_never_reaches_left_page :
    6000 > setupHat.lastUpdated.getD 16 0 + 5000 ∧
    (∀ c ∈ turnOffIdleServos setupHat 6000, c.page = 0) ∧
    SinkCall.mk 0 15 4096 ∈ turnOffIdleServos setupHat 6000 := by
  decide

/-- Claim C2 (counterexample): a relative command of delta `+10` to the
inverted channel (`"RM"`, pin 5) does not behave as if the delta were used
unchanged: the source applies `value = 100 - value` before the
relative/absolute branch, so the outcome differs from the spec-side variant
that inverts absolute commands only. -/
theorem invert_applied_to_relative_cex :
    sendCommand hatRM90 0 ['R', 'M'] 10 true ≠
      sendCommand_specAbsInvertOnly hatRM90 0 ['R', 'M'] 10 true := by
  decide

/-- Claim C3 (counterexample): processing the line `HH90` on the state left by
`setup()` (channel `HH` calibrated to pulse range [180,580]) does not produce
the sink call `setPulse(0, 380)` the claim predicts. -/
theorem lineHH90_sink_call_not_380 :
    (processLine setupHat 0 ['H', 'H', '9', '0']).map (fun r => r.2.1) ≠
      some [SinkCall.mk 0 0 380] := by
  decide

/-- Claim C3 (amended): processing the line `HH90` produces exactly the sink
call `setPulse(0, 388)`: the percentage 90 is first mapped into `HH`'s degree
range [40,100], giving `40 + (90*60)/100 = 94` degrees, and the degrees are
then mapped into the pulse range [180,580] with truncating division,
`180 + (94*400)/180 = 388`. -/
theorem lineHH90_sink_call_388 :
    (processLine setupHat 0 ['H', 'H', '9', '0']).map (fun r => r.2.1) =
      some [SinkCall.mk 0 0 388] := by
  decide

/-- Claim C4 (code bug evidence): a token with no digit and no sign — the bare
`DP` token itself, or an unknown bare code such as `ZZ` — makes `strpbrk`
return NULL, which `processCommands` then dereferences (`value_str[0]`,
`atol(value_str)`): in the model the parse is `none` (undefined behaviour),
and the whole token loop is poisoned rather than recovering with a fallback
value. -/
theorem digitless_token_hits_null_strpbrk :
    parseToken ['D', 'P'] = none ∧ parseToken ['Z', 'Z'] = none ∧
    processTokens setupHat 0 [['D', 'P']] = none := by
  decide

/-- Claim C6 (counterexample): the percentage mapping truncates instead of
rounding to nearest: at `p = 1`, `min = 0`, `max = 160` the source computes
`(160*1)/100 = 1` while `min + round((max-min)*p/100) = round(1.6) = 2`. -/
theorem percentMapping_not_rounded_cex :
    getCalculatedDegreesFromPercentage 1 0 160 = 1 ∧
    fromPercentage_specRound 1 0 160 = 2 ∧
    getCalculatedDegreesFromPercentage 1 0 160 ≠ fromPercentage_specRound 1 0 160 := by
  decide

/-- Claim C7 (code bug evidence): the Default Positions handler does not touch
only the ten listed channels: its loop bound is `sizeof(pins) - 1 = 19`
(2-byte `int` on AVR), so after the ten valid entries it reads `pins[10]` and
onward past the end of the local array — in the model the read is `none`, so
the whole handler (reached e.g. by the token `DP0`, whose value parses) is
undefined behaviour. -/
theorem defaultPositions_reads_past_pins :
    setDefaultPositions setupHat 0 = none ∧
    processTokens setupHat 0 [['D', 'P', '0']] = none := by
  decide

/-- Claim C10 (code bug evidence): the loop bound of the Default Positions
handler is `sizeof(pins) - 1 = 19`, not the entry count 10 of the pin list,
and index 10 — which the loop does reach — is already out of bounds. -/
theorem defaultPositions_loop_bound_exceeds_length :
    sizeofPins - 1 = 19 ∧ defaultPins.length = 10 ∧
    10 ∈ List.range (sizeofPins - 1) ∧ defaultPins.get? 10 = none := by
  decide

/-- Claim C6 (amended): for bounds `min ≤ max` the percentage mapping clamps
`p` to `[0,100]` and returns exactly `min + floor((max-min) * p / 100)` —
truncating integer division, not rounding to nearest; it maps 0 to `min`,
100 to `max`, and is monotone in `p`. -/
theorem percentMapping_floor_formula (p m M : Int) (hmM : m ≤ M) :
    getCalculatedDegreesFromPercentage p m M = fromPercentage_specFloor p m M ∧
    getCalculatedDegreesFromPercentage 0 m M = m ∧
    getCalculatedDegreesFromPercentage 100 m M = M ∧
    (∀ q r : Int, q ≤ r →
      getCalculatedDegreesFromPercentage q m M ≤
        getCalculatedDegreesFromPercentage r m M) := by
  have key : ∀ v : Int, 0 ≤ v →
      Int.tdiv (v * (M - m)) 100 = v * (M - m) / 100 := by
    intro v hv
    exact Int.tdiv_eq_ediv (mul_nonneg hv (by omega)) (by norm_num)
  refine ⟨?_, ?_, ?_, ?_⟩
  · simp only [getCalculatedDegreesFromPercentage, fromPercentage_specFloor, amap,
      sub_zero]
    have h2 : (0 : Int) ≤ if (if p > 100 then 100 else p) < 0 then 0
        else (if p > 100 then 100 else p) := by
      split_ifs <;> omega
    rw [key _ h2, mul_comm (M - m)]
    omega
  · simp only [getCalculatedDegreesFromPercentage, amap, sub_zero]
    norm_num
  · simp only [getCalculatedDegreesFromPercentage, amap, sub_zero]
    norm_num
  · intro q r hqr
    simp only [getCalculatedDegreesFromPercentage, amap, sub_zero]
    have hq : (0 : Int) ≤ if (if q > 100 then 100 else q) < 0 then 0
        else (if q > 100 then 100 else q) := by split_ifs <;> omega
    have hr : (0 : Int) ≤ if (if r > 100 then 100 else r) < 0 then 0
        else (if r > 100 then 100 else r) := by split_ifs <;> omega
    have hle : (if (if q > 100 then 100 else q) < 0 then 0
        else (if q > 100 then 100 else q)) ≤
        (if (if r > 100 then 100 else r) < 0 then 0
        else (if r > 100 then 100 else r)) := by split_ifs <;> omega
    rw [key _ hq, key _ hr]
    have := Int.ediv_le_ediv (by norm_num : (0 : Int) < 100)
      (mul_le_mul_of_nonneg_right hle (by omega : (0 : Int) ≤ M - m))
    omega

/-- Claim C6 (amended, witness): the formula at `p = 1`, bounds `[0,160]`. -/
theorem percentMapping_floor_formula_witness :
    (0 : Int) ≤ 160 ∧
    getCalculatedDegreesFromPercentage 1 0 160 = fromPercentage_specFloor 1 0 160 :=
  ⟨by decide, (percentMapping_floor_formula 1 0 160 (by decide)).1⟩

/-- Claim C2 (amended): every command resolving to the inverted channel
(`"RM"`, pin 5, degree range [40,140]) has `v := 100 - v` applied, absolute
and relative alike: an absolute command stores the angle for percentage
`100 - v`, and a relative command with a set angle applies the relative
mapping with delta `100 - v` instead of `v`. -/
theorem invert_applies_to_both_modes (h : Hat) (t : Nat) (v : Int)
    (hlen : h.servoPoss.length = 32) :
    (sendCommand h t ['R', 'M'] v false).1.servoPoss.getD 5 0 =
      getCalculatedDegreesFromPercentage (100 - v) RIGHT_MIDDLE_MIN RIGHT_MIDDLE_MAX ∧
    (h.servoPoss.getD 5 0 ≠ -1 →
      (sendCommand h t ['R', 'M'] v true).1.servoPoss.getD 5 0 =
        getCalculatedRelativeDegrees (100 - v) RIGHT_MIDDLE_MIN RIGHT_MIDDLE_MAX
          (h.servoPoss.getD 5 0)) := by
  have hcp : getControlPin ['R', 'M'] = 5 := by decide
  have hpi : PIN_INVERT = 5 := by decide
  have hmin : getServoMin 5 = RIGHT_MIDDLE_MIN := by decide
  have hmax : getServoMax 5 = RIGHT_MIDDLE_MAX := by decide
  have h5 : 5 < h.servoPoss.length := by omega
  constructor
  · simp only [sendCommand, hcp, hpi, hmin, hmax, setServoDegrees, getServoDegrees]
    norm_num
    simp [List.getD_eq_getElem?_getD, List.getElem?_set_self h5]
  · intro hne
    simp only [List.getD_eq_getElem?_getD] at hne
    simp only [sendCommand, hcp, hpi, hmin, hmax, setServoDegrees, getServoDegrees,
      show Int.toNat 5 = (5 : Nat) from rfl, List.getD_eq_getElem?_getD]
    norm_num
    rw [if_neg hne]
    simp [List.getElem?_set_self h5]

/-- Claim C2 (amended, witness): relative delta `+10` to `RM` with its angle
previously set to 90 degrees. -/
theorem invert_applies_to_both_modes_witness :
    hatRM90.servoPoss.length = 32 ∧ hatRM90.servoPoss.getD 5 0 ≠ -1 ∧
    (sendCommand hatRM90 0 ['R', 'M'] 10 true).1.servoPoss.getD 5 0 =
      getCalculatedRelativeDegrees (100 - 10) RIGHT_MIDDLE_MIN RIGHT_MIDDLE_MAX
        (hatRM90.servoPoss.getD 5 0) :=
  ⟨by decide, by decide,
    (invert_applies_to_both_modes hatRM90 0 10 (by decide)).2 (by decide)⟩

/-- Claim C5: dispatching a parsed token whose two-character code is not in
the lookup table (and is not `DP`) emits exactly the `E100` response carrying
that code, leaves the servo state untouched, makes no PWM call, and the token
loop continues with the remaining tokens from the unchanged state. -/
theorem unknownCode_E100_no_mutation (h : Hat) (t : Nat) (tok servo : List Char)
    (value : Int) (relative : Bool) (rest : List (List Char))
    (hp : parseToken tok = some (servo, value, relative))
    (hcp : getControlPin servo = -1) (hdp : servo ≠ ['D', 'P']) :
    sendCommand h t servo value relative = (h, [], [Response.e100 servo]) ∧
    processTokens h t (tok :: rest) =
      (processTokens h t rest).map fun r =>
        (r.1, r.2.1, Response.ack servo relative value :: Response.e100 servo :: r.2.2) := by
  have hsc : sendCommand h t servo value relative = (h, [], [Response.e100 servo]) := by
    simp [sendCommand, hcp]
  refine ⟨hsc, ?_⟩
  simp only [processTokens, processToken, hp]
  rw [if_neg hdp, hsc]
  cases hrest : processTokens h t rest with
  | none => simp [hrest]
  | some r => simp [hrest]

/-- Claim C5 (witness): the token `ZZ50` on the post-`setup()` state, followed
by another token. -/
theorem unknownCode_E100_no_mutation_witness :
    parseToken ['Z', 'Z', '5', '0'] = some (['Z', 'Z'], 50, false) ∧
    getControlPin ['Z', 'Z'] = -1 ∧ ['Z', 'Z'] ≠ ['D', 'P'] ∧
    sendCommand setupHat 0 ['Z', 'Z'] 50 false =
      (setupHat, [], [Response.e100 ['Z', 'Z']]) :=
  ⟨by decide, by decide, by decide,
    (unknownCode_E100_no_mutation setupHat 0 ['Z', 'Z', '5', '0'] ['Z', 'Z'] 50 false
      [['H', 'H', '9', '0']] (by decide) (by decide) (by decide)).1⟩

/-- Setting an index at or beyond `j` leaves the first `j` elements alone. -/
theorem take_set_of_le {α : Type} (l : List α) (i j : Nat) (a : α) (h : j ≤ i) :
    (l.set i a).take j = l.take j := by
  induction l generalizing i j with
  | nil => simp
  | cons x xs ih =>
    cases i with
    | zero =>
      have : j = 0 := Nat.le_zero.mp h
      simp [this]
    | succ i =>
      cases j with
      | zero => simp
      | succ j => simp [List.set, List.take, ih i j (Nat.succ_le_succ_iff.mp h)]

/-- Taking one past a set index splits off the written element. -/
theorem set_take_succ {α : Type} (l : List α) (i : Nat) (a : α) (h : i < l.length) :
    (l.set i a).take (i + 1) = l.take i ++ [a] := by
  induction l generalizing i with
  | nil => simp at h
  | cons x xs ih =>
    cases i with
    | zero => simp
    | succ i => simp [List.set, List.take, ih i (Nat.lt_of_succ_lt_succ h)]

/-- `takeWhile` stops exactly at the first failing position. -/
theorem takeWhile_eq_take_at {α : Type} (p : α → Bool) (l : List α) (n : Nat)
    (hn : n < l.length)
    (hall : ∀ i (hi : i < l.length), i < n → p (l.get ⟨i, hi⟩) = true)
    (hstop : p (l.get ⟨n, hn⟩) = false) :
    l.takeWhile p = l.take n := by
  induction l generalizing n with
  | nil => simp at hn
  | cons x xs ih =>
    cases n with
    | zero =>
      simp only [List.get] at hstop
      simp [List.takeWhile, hstop]
    | succ n =>
      have hx : p x = true := hall 0 (Nat.succ_pos _) (Nat.succ_pos _)
      simp only [List.takeWhile, hx, List.take]
      rw [ih n (Nat.lt_of_succ_lt_succ hn)
        (fun i hi hin => hall (i + 1) (Nat.succ_lt_succ hi) (Nat.succ_lt_succ hin))
        hstop]

/-- Accumulating a line never changes the buffer's length. -/
theorem length_accumBuf (line : List Char) :
    ∀ (buf : List Char) (n : Nat), (accumBuf buf n line).length = buf.length := by
  induction line with
  | nil => intro buf n; simp [accumBuf]
  | cons c cs ih => intro buf n; simp [accumBuf, ih]

/-- Running `recvWithEndMarker` from a mid-line state over a line's bytes and
the end marker: the buffer is accumulated with clamping and terminated, the
write index resets, the `newData` flag is raised, and the bytes after the
marker are left unread. -/
theorem recv_run (line : List Char) :
    ∀ (buf : List Char) (n : Nat) (rest : List Char), '\n' ∉ line → n ≤ 31 →
    recvWithEndMarker ⟨buf, n, false⟩ (line ++ '\n' :: rest) =
      (⟨accumBuf buf n line, 0, true⟩, rest) := by
  induction line with
  | nil =>
    intro buf n rest _ _
    cases rest with
    | nil => simp [recvWithEndMarker, recvStep, accumBuf]
    | cons c r => simp [recvWithEndMarker, recvStep, accumBuf]
  | cons c cs ih =>
    intro buf n rest hnl hn
    have hc : c ≠ '\n' := fun hcn => hnl (hcn ▸ List.mem_cons_self c cs)
    have hcs : '\n' ∉ cs := fun hm => hnl (List.mem_cons_of_mem c hm)
    simp only [List.cons_append, recvWithEndMarker, recvStep, if_pos hc, accumBuf]
    by_cases hcl : n + 1 ≥ numChars
    · simp only [if_pos hcl]
      exact ih (buf.set n c) (numChars - 1) rest hcs (by simp [numChars])
    · simp only [if_neg hcl]
      exact ih (buf.set n c) (n + 1) rest hcs
        (by simp only [numChars] at hcl; omega)

/-- The C string left in the buffer after accumulating and terminating a line
from write position `n`: the old bytes before `n` followed by the first
`31 - n` bytes of the line (the rest of an oversized line is lost). -/
theorem cstring_accumBuf (line : List Char) :
    ∀ (buf : List Char) (n : Nat), buf.length = 32 → n ≤ 31 → '\x00' ∉ line →
    (∀ i (hi : i < buf.length), i < n → buf.get ⟨i, hi⟩ ≠ '\x00') →
    cstringOf (accumBuf buf n line) = buf.take n ++ line.take (31 - n) := by
  induction line with
  | nil =>
    intro buf n hlen hn _ hall
    have hn32 : n < (buf.set n '\x00').length := by simp [hlen]; omega
    have hstop : ((buf.set n '\x00').get ⟨n, hn32⟩ != '\x00') = false := by
      simp [List.getElem_set_self]
    have hpre : ∀ i (hi : i < (buf.set n '\x00').length), i < n →
        ((buf.set n '\x00').get ⟨i, hi⟩ != '\x00') = true := by
      intro i hi hin
      have hi' : i < buf.length := by simpa using hi
      have : (buf.set n '\x00').get ⟨i, hi⟩ = buf.get ⟨i, hi'⟩ := by
        simp [List.getElem_set_ne (by omega : n ≠ i)]
      rw [this]
      simpa using hall i hi' hin
    simp only [accumBuf, cstringOf]
    rw [takeWhile_eq_take_at _ _ n hn32 hpre hstop, take_set_of_le _ _ _ _ (le_refl n)]
    simp
  | cons c cs ih =>
    intro buf n hlen hn hz hall
    have hc : c ≠ '\x00' := fun hcn => hz (hcn ▸ List.mem_cons_self c cs)
    have hzs : '\x00' ∉ cs := fun hm => hz (List.mem_cons_of_mem c hm)
    simp only [accumBuf]
    by_cases hcl : n + 1 ≥ numChars
    · have hne : n = 31 := by simp only [numChars] at hcl; omega
      subst hne
      rw [if_pos hcl]
      have hres := ih (buf.set 31 c) (numChars - 1) (by simp [hlen]) (by simp [numChars])
        hzs ?_
      · rw [hres]
        simp only [numChars]
        rw [take_set_of_le _ _ _ _ (by norm_num : (31 : Nat) ≤ 31)]
        simp
      · intro i hi hin
        simp only [numChars] at hin
        have hi' : i < buf.length := by simpa using hi
        have : (buf.set 31 c).get ⟨i, hi⟩ = buf.get ⟨i, hi'⟩ := by
          simp [List.getElem_set_ne (by omega : 31 ≠ i)]
        rw [this]
        exact hall i hi' hin
    · rw [if_neg hcl]
      have hn30 : n < 31 := by simp only [numChars] at hcl; omega
      have hres := ih (buf.set n c) (n + 1) (by simp [hlen]) (by omega) hzs ?_
      · rw [hres]
        rw [set_take_succ _ _ _ (by omega : n < buf.length)]
        have h31 : 31 - n = (31 - (n + 1)) + 1 := by omega
        rw [h31]
        simp [List.take_succ_cons]
      · intro i hi hin
        have hi' : i < buf.length := by simpa using hi
        rcases Nat.lt_or_ge i n with hlt | hge
        · have : (buf.set n c).get ⟨i, hi⟩ = buf.get ⟨i, hi'⟩ := by
            simp [List.getElem_set_ne (by omega : n ≠ i)]
          rw [this]
          exact hall i hi' hlt
        · have hie : i = n := by omega
          subst hie
          have : (buf.set i c).get ⟨i, hi⟩ = c := by simp [List.getElem_set_self]
          rw [this]
          exact hc

/-- Claim C8: the write index stays below the 32-byte capacity at every step
(so every buffer write is in bounds), and a line followed by the end marker
leaves a terminated buffer whose C string is at most the first 31 bytes
received since the start of the line (bytes of an oversized line beyond that
are lost), with the write position reset to 0, the `newData` flag raised, and
the bytes after the marker left for later. -/
theorem recvLine_inBounds_and_complete (line rest buf : List Char)
    (hbuf : buf.length = 32) (hnl : '\n' ∉ line) (hz : '\x00' ∉ line) :
    (∀ (st : RecvState) (c : Char), st.ndx < numChars → (recvStep st c).ndx < numChars) ∧
    recvWithEndMarker ⟨buf, 0, false⟩ (line ++ '\n' :: rest) =
      (⟨accumBuf buf 0 line, 0, true⟩, rest) ∧
    (accumBuf buf 0 line).length = 32 ∧
    cstringOf (accumBuf buf 0 line) = line.take 31 := by
  refine ⟨?_, ?_, ?_, ?_⟩
  · intro st c hst
    simp only [recvStep, numChars]
    split_ifs <;> simp <;> omega
  · exact recv_run line buf 0 rest hnl (by norm_num)
  · rw [length_accumBuf, hbuf]
  · rw [cstring_accumBuf line buf 0 hbuf (by norm_num) hz
      (fun i hi hin => absurd hin (Nat.not_lt_zero i))]
    simp

/-- Claim C8 (witness): the five-byte line `HELLO` followed by the marker and
one more byte, on a fresh 32-byte buffer. -/
theorem recvLine_inBounds_and_complete_witness :
    (List.replicate 32 'q').length = 32 ∧
    '\n' ∉ ['H', 'E', 'L', 'L', 'O'] ∧ '\x00' ∉ ['H', 'E', 'L', 'L', 'O'] ∧
    cstringOf (accumBuf (List.replicate 32 'q') 0 ['H', 'E', 'L', 'L', 'O']) =
      List.take 31 ['H', 'E', 'L', 'L', 'O'] :=
  ⟨by decide, by decide, by decide,
    (recvLine_inBounds_and_complete ['H', 'E', 'L', 'L', 'O'] ['X']
      (List.replicate 32 'q') (by decide) (by decide) (by decide)).2.2.2⟩

/-- Reading a just-written slot with `getD`. -/
theorem getD_set_self {α : Type} (l : List α) (i : Nat) (a d : α) (h : i < l.length) :
    (l.set i a).getD i d = a := by
  simp [List.getD_eq_getElem?_getD, List.getElem?_set_self h]

/-- Reading another slot after a write with `getD`. -/
theorem getD_set_other {α : Type} (l : List α) (i j : Nat) (a d : α) (h : i ≠ j) :
    (l.set i a).getD j d = l.getD j d := by
  simp [List.getD_eq_getElem?_getD, List.getElem?_set_ne h]

/-- Every pin's configured degree range lies ordered inside [0,180]
(unknown pins get the safe default 90/90). -/
theorem servoRange_ok (p : Int) :
    0 ≤ getServoMin p ∧ getServoMin p ≤ getServoMax p ∧ getServoMax p ≤ 180 := by
  unfold getServoMin getServoMax
  by_cases h1 : p = PIN_HEAD_TWIST
  · simp only [if_pos h1]
    decide
  simp only [if_neg h1]
  by_cases h2 : p = PIN_HEAD_MOUTH
  · simp only [if_pos h2]
    decide
  simp only [if_neg h2]
  by_cases h3 : p = PIN_HEAD_VERT
  · simp only [if_pos h3]
    decide
  simp only [if_neg h3]
  by_cases h4 : p = PIN_RIGHT_BICEP_TWIST
  · simp only [if_pos h4]
    decide
  simp only [if_neg h4]
  by_cases h5 : p = PIN_RIGHT_THUMB
  · simp only [if_pos h5]
    decide
  simp only [if_neg h5]
  by_cases h6 : p = PIN_RIGHT_INDEX
  · simp only [if_pos h6]
    decide
  simp only [if_neg h6]
  by_cases h7 : p = PIN_RIGHT_MIDDLE
  · simp only [if_pos h7]
    decide
  simp only [if_neg h7]
  by_cases h8 : p = PIN_RIGHT_RING
  · simp only [if_pos h8]
    decide
  simp only [if_neg h8]
  by_cases h9 : p = PIN_RIGHT_PINKY
  · simp only [if_pos h9]
    decide
  simp only [if_neg h9]
  by_cases h10 : p = PIN_RIGHT_WRIST
  · simp only [if_pos h10]
    decide
  simp only [if_neg h10]
  by_cases h11 : p = PIN_LEFT_THUMB
  · simp only [if_pos h11]
    decide
  simp only [if_neg h11]
  by_cases h12 : p = PIN_LEFT_INDEX
  · simp only [if_pos h12]
    decide
  simp only [if_neg h12]
  by_cases h13 : p = PIN_LEFT_MIDDLE
  · simp only [if_pos h13]
    decide
  simp only [if_neg h13]
  by_cases h14 : p = PIN_LEFT_RING
  · simp only [if_pos h14]
    decide
  simp only [if_neg h14]
  by_cases h15 : p = PIN_LEFT_PINKY
  · simp only [if_pos h15]
    decide
  simp only [if_neg h15]
  by_cases h16 : p = PIN_LEFT_WRIST
  · simp only [if_pos h16]
    decide
  simp only [if_neg h16]
  decide

/-- `map(v, 0, 100, m, M)` stays inside `[m, M]` for `v` in `[0,100]`. -/
theorem amap_percent_bounds (v m M : Int) (hv0 : 0 ≤ v) (hv1 : v ≤ 100)
    (hmM : m ≤ M) : m ≤ amap v 0 100 m M ∧ amap v 0 100 m M ≤ M := by
  unfold amap
  rw [sub_zero, sub_zero, Int.tdiv_eq_ediv (mul_nonneg hv0 (by omega)) (by norm_num)]
  constructor
  · have h0 : 0 ≤ v * (M - m) / 100 :=
      Int.ediv_nonneg (mul_nonneg hv0 (by omega)) (by norm_num)
    omega
  · have h1 : v * (M - m) ≤ 100 * (M - m) := mul_le_mul_of_nonneg_right hv1 (by omega)
    have h2 : v * (M - m) / 100 ≤ 100 * (M - m) / 100 :=
      Int.ediv_le_ediv (by norm_num) h1
    rw [Int.mul_ediv_cancel_left _ (by norm_num : (100 : Int) ≠ 0)] at h2
    omega

/-- The absolute percentage mapping produces a degree value in [0,180]
whenever the pin's degree range lies ordered inside [0,180]. -/
theorem getCalc_bounds (v m M : Int) (h0 : 0 ≤ m) (hmM : m ≤ M) (h180 : M ≤ 180) :
    0 ≤ getCalculatedDegreesFromPercentage v m M ∧
    getCalculatedDegreesFromPercentage v m M ≤ 180 := by
  simp only [getCalculatedDegreesFromPercentage]
  have hcv0 : (0 : Int) ≤ if (if v > 100 then 100 else v) < 0 then 0
      else (if v > 100 then 100 else v) := by split_ifs <;> omega
  have hcv1 : (if (if v > 100 then 100 else v) < 0 then 0
      else (if v > 100 then 100 else v)) ≤ 100 := by split_ifs <;> omega
  have hb := amap_percent_bounds _ m M hcv0 hcv1 hmM
  constructor <;> linarith [hb.1, hb.2]

/-- The relative mapping also produces a degree value in [0,180], for any
stored current value: the new percentage is clamped before mapping back. -/
theorem getRel_bounds (v m M cur : Int) (h0 : 0 ≤ m) (hmM : m ≤ M)
    (h180 : M ≤ 180) :
    0 ≤ getCalculatedRelativeDegrees v m M cur ∧
    getCalculatedRelativeDegrees v m M cur ≤ 180 := by
  simp only [getCalculatedRelativeDegrees]
  set cp := amap cur m M 0 100 with hcp
  have hcv0 : (0 : Int) ≤ if (if cp + v > 100 then 100 else cp + v) < 0 then 0
      else (if cp + v > 100 then 100 else cp + v) := by split_ifs <;> omega
  have hcv1 : (if (if cp + v > 100 then 100 else cp + v) < 0 then 0
      else (if cp + v > 100 then 100 else cp + v)) ≤ 100 := by split_ifs <;> omega
  have hb := amap_percent_bounds _ m M hcv0 hcv1 hmM
  constructor <;> linarith [hb.1, hb.2]

/-- The registry invariant is stable under moving the clock forward. -/
theorem HatInv_relax (h : Hat) (t t' : Nat) (hinv : HatInv h t) (htt : t ≤ t') :
    HatInv h t' := by
  obtain ⟨a, b, c, d, e, f, g⟩ := hinv
  exact ⟨a, b, c, d, e, f, fun pin hp => le_trans (g pin hp) htt⟩

/-- `setServoDegrees` with an in-range degree value preserves the registry
invariant at the current time, and no channel's timestamp decreases. -/
theorem setServoDegrees_inv (h : Hat) (t : Nat) (pos degrees : Int)
    (hinv : HatInv h t) (hd0 : 0 ≤ degrees) (hd1 : degrees ≤ 180) :
    HatInv (setServoDegrees h t pos degrees).1 t ∧
    (∀ pin : Nat, h.lastUpdated.getD pin 0 ≤
      (setServoDegrees h t pos degrees).1.lastUpdated.getD pin 0) := by
  obtain ⟨l1, l2, l3, l4, hmm, hpp, hlu⟩ := hinv
  simp only [setServoDegrees]
  refine ⟨⟨l1, l2, by simpa using l3, by simpa using l4, hmm, ?_, ?_⟩, ?_⟩
  · intro pin hp
    by_cases hpe : pos.toNat = pin
    · subst hpe
      rw [getD_set_self _ _ _ _ (by omega : pos.toNat < h.servoPoss.length)]
      right
      exact ⟨hd0, hd1⟩
    · rw [getD_set_other _ _ _ _ _ hpe]
      exact hpp pin hp
  · intro pin hp
    by_cases hpe : pos.toNat = pin
    · subst hpe
      rw [getD_set_self _ _ _ _ (by omega : pos.toNat < h.lastUpdated.length)]
    · rw [getD_set_other _ _ _ _ _ hpe]
      exact hlu pin hp
  · intro pin
    by_cases hpe : pos.toNat = pin
    · subst hpe
      by_cases hlt : pos.toNat < h.lastUpdated.length
      · rw [getD_set_self _ _ _ _ hlt]
        exact hlu _ (by omega)
      · rw [List.set_eq_of_length_le (by omega)]
    · rw [getD_set_other _ _ _ _ _ hpe]

/-- `sendCommand` preserves the registry invariant at dispatch time, and no
channel's timestamp decreases. -/
theorem sendCommand_inv (h : Hat) (t : Nat) (servo : List Char) (v : Int)
    (rel : Bool) (hinv : HatInv h t) :
    HatInv (sendCommand h t servo v rel).1 t ∧
    (∀ pin : Nat, h.lastUpdated.getD pin 0 ≤
      (sendCommand h t servo v rel).1.lastUpdated.getD pin 0) := by
  obtain ⟨hr0, hr1, hr2⟩ := servoRange_ok (getControlPin servo)
  simp only [sendCommand]
  by_cases hcp : getControlPin servo > -1
  · simp only [if_pos hcp]
    by_cases hrel : rel = false
    · simp only [hrel, if_pos (rfl : (false : Bool) = false)]
      have hb := getCalc_bounds
        (if getControlPin servo = PIN_INVERT then 100 - v else v)
        (getServoMin (getControlPin servo)) (getServoMax (getControlPin servo))
        hr0 hr1 hr2
      exact setServoDegrees_inv h t _ _ ⟨hinv.1, hinv.2.1, hinv.2.2.1, hinv.2.2.2.1,
        hinv.2.2.2.2.1, hinv.2.2.2.2.2.1, hinv.2.2.2.2.2.2⟩ hb.1 hb.2
    · have hrel' : rel = true := by
        cases rel
        · exact absurd rfl hrel
        · rfl
      simp only [hrel', if_neg (by simp : ¬((true : Bool) = false))]
      by_cases hbase : getServoDegrees h (getControlPin servo) = -1
      · simp only [if_pos hbase]
        have hb1 := getCalc_bounds 50 (getServoMin (getControlPin servo))
          (getServoMax (getControlPin servo)) hr0 hr1 hr2
        have s1 := setServoDegrees_inv h t (getControlPin servo) _ hinv hb1.1 hb1.2
        have hb2 := getRel_bounds
          (if getControlPin servo = PIN_INVERT then 100 - v else v)
          (getServoMin (getControlPin servo)) (getServoMax (getControlPin servo))
          (getServoDegrees (setServoDegrees h t (getControlPin servo)
            (getCalculatedDegreesFromPercentage 50 (getServoMin (getControlPin servo))
              (getServoMax (getControlPin servo)))).1 (getControlPin servo))
          hr0 hr1 hr2
        have s2 := setServoDegrees_inv _ t (getControlPin servo) _ s1.1 hb2.1 hb2.2
        exact ⟨s2.1, fun pin => le_trans (s1.2 pin) (s2.2 pin)⟩
      · simp only [if_neg hbase]
        have hb2 := getRel_bounds
          (if getControlPin servo = PIN_INVERT then 100 - v else v)
          (getServoMin (getControlPin servo)) (getServoMax (getControlPin servo))
          (getServoDegrees h (getControlPin servo)) hr0 hr1 hr2
        exact setServoDegrees_inv h t (getControlPin servo) _ hinv hb2.1 hb2.2
  · simp only [if_neg hcp]
    exact ⟨hinv, fun pin => le_refl _⟩

/-- A dispatch trace always starts with its initial state. -/
theorem hatTrace_shape (h : Hat) (cmds : List TimedCmd) :
    ∃ l, hatTrace h cmds = h :: l := by
  cases cmds <;> simp [hatTrace]

/-- Dispatching a command list with non-decreasing timestamps from any state
satisfying the registry invariant keeps the invariant at every trace state,
with per-channel timestamps non-decreasing along the trace. -/
theorem trace_inv (cmds : List TimedCmd) :
    ∀ (h0 : Hat) (t0 : Nat), HatInv h0 t0 →
    isNondec (t0 :: cmds.map TimedCmd.time) = true →
    (∀ hs ∈ hatTrace h0 cmds, ∀ pin : Nat, pin < 32 →
        hs.servoMins.getD pin 0 ≤ hs.servoMaxs.getD pin 0 ∧
        degreesOK (hs.servoPoss.getD pin 0)) ∧
    (∀ pin : Nat, pin < 32 →
        isNondec ((hatTrace h0 cmds).map (fun hs => hs.lastUpdated.getD pin 0)) = true) := by
  induction cmds with
  | nil =>
    intro h0 t0 hinv _
    constructor
    · intro hs hmem pin hp
      simp only [hatTrace, List.mem_singleton] at hmem
      subst hmem
      exact ⟨hinv.2.2.2.2.1 pin hp, hinv.2.2.2.2.2.1 pin hp⟩
    · intro pin _
      simp [hatTrace, isNondec]
  | cons c rest ih =>
    intro h0 t0 hinv hmono
    have hmono' : (Nat.ble t0 c.time && isNondec (c.time :: rest.map TimedCmd.time)) = true := by
      simpa [isNondec] using hmono
    rw [Bool.and_eq_true] at hmono'
    have ht0 : t0 ≤ c.time := Nat.le_of_ble_eq_true hmono'.1
    have hinv1 : HatInv h0 c.time := HatInv_relax h0 t0 c.time hinv ht0
    have hstep := sendCommand_inv h0 c.time c.servo c.value c.relative hinv1
    have hrec := ih (sendCommand h0 c.time c.servo c.value c.relative).1 c.time
      hstep.1 hmono'.2
    obtain ⟨l, hl⟩ := hatTrace_shape (sendCommand h0 c.time c.servo c.value c.relative).1 rest
    constructor
    · intro hs hmem pin hp
      simp only [hatTrace, List.mem_cons] at hmem
      rcases hmem with he | hm
      · subst he
        exact ⟨hinv.2.2.2.2.1 pin hp, hinv.2.2.2.2.2.1 pin hp⟩
      · exact hrec.1 hs hm pin hp
    · intro pin hp
      simp only [hatTrace, List.map_cons]
      rw [hl, List.map_cons]
      simp only [isNondec, Bool.and_eq_true]
      constructor
      · exact Nat.ble_eq_true_of_le (hstep.2 pin)
      · have hx := hrec.2 pin hp
        rw [hl, List.map_cons] at hx
        exact hx

/-- The state left by `setup()` satisfies the registry invariant at time 0. -/
theorem setupHat_inv : HatInv setupHat 0 := by
  constructor
  · decide
  constructor
  · decide
  constructor
  · decide
  constructor
  · decide
  constructor
  · decide
  constructor
  · decide
  · decide

/-- Claim C9: along every dispatch of a command sequence with non-decreasing
timestamps, starting from the `setup()` state, every channel keeps
`minPulse ≤ maxPulse`, its stored angle is the `-1` sentinel or lies in
[0,180], and its `lastUpdateTime` never decreases. -/
theorem registry_invariants (cmds : List TimedCmd)
    (hmono : isNondec (cmds.map TimedCmd.time) = true) :
    (∀ hs ∈ hatTrace setupHat cmds, ∀ pin : Nat, pin < 32 →
        hs.servoMins.getD pin 0 ≤ hs.servoMaxs.getD pin 0 ∧
        degreesOK (hs.servoPoss.getD pin 0)) ∧
    (∀ pin : Nat, pin < 32 →
        isNondec ((hatTrace setupHat cmds).map
          (fun hs => hs.lastUpdated.getD pin 0)) = true) := by
  apply trace_inv cmds setupHat 0 setupHat_inv
  cases hm : cmds.map TimedCmd.time with
  | nil => simp [isNondec]
  | cons a l =>
    rw [hm] at hmono
    simp only [isNondec, Bool.and_eq_true]
    exact ⟨Nat.ble_eq_true_of_le (Nat.zero_le a), hmono⟩

/-- Claim C9 (witness): a single absolute command to `RM` at time 100. -/
theorem registry_invariants_witness :
    isNondec ([TimedCmd.mk 100 ['R', 'M'] 10 false].map TimedCmd.time) = true ∧
    (∀ pin : Nat, pin < 32 →
        isNondec ((hatTrace setupHat [TimedCmd.mk 100 ['R', 'M'] 10 false]).map
          (fun hs => hs.lastUpdated.getD pin 0)) = true) :=
  ⟨by decide, (registry_invariants [TimedCmd.mk 100 ['R', 'M'] 10 false] (by decide)).2⟩
